import Mathlib

/-!
Verification development for the HTML-to-MDX converter
(`src/utils/htmlToMdx.ts` of the `page-to-mdx` repository).

The document tree is shallowly embedded as `Node` (element nodes carry a
tag name, an attribute list and an ordered child list; text nodes carry
raw character data).  The conversion functions below are direct
translations of the TypeScript source: `convertElement`,
`convertChildren`, `convertListItems` (the loop body of `convertList`),
`convertTable`, `getTextContent` and `cleanupMdx`.  JavaScript string
operations (`trim`, `replace` with the regexes used by the source,
`split("\n")`, `toLowerCase`) are modelled by executable character-list
functions restricted to ASCII whitespace, which is the only whitespace
the claims exercise.
-/

/-- Options record of the converter; all three switches default to
`false` exactly as the destructuring defaults in `htmlToMdx` do. -/
structure ConversionOptions where
  preserveImages : Bool := false
  preserveLinks : Bool := false
  includeMetadata : Bool := false

/-- Parsed document tree: element nodes (tag, attributes, children) and
text nodes, as described by the data model of the converter. -/
inductive Node where
  | text : String → Node
  | elem : String → List (String × String) → List Node → Node

/-- Characters matched by the JavaScript regex class `\s` (ASCII part),
also the characters removed by `String.prototype.trim`. -/
def isJsWs (c : Char) : Bool :=
  c = ' ' ∨ c = '\t' ∨ c = '\n' ∨ c = '\r' ∨ c = '\x0b' ∨ c = '\x0c'

/-- Horizontal whitespace, the class `[ \t]` of `cleanupMdx`. -/
def isHorizWs (c : Char) : Bool :=
  c = ' ' ∨ c = '\t'

/-- Model of `String.prototype.trim` on character lists. -/
def jsTrimList (l : List Char) : List Char :=
  ((l.dropWhile isJsWs).reverse.dropWhile isJsWs).reverse

/-- Model of `String.prototype.trim`. -/
def jsTrim (s : String) : String := String.mk (jsTrimList s.data)

/-- Model of `.replace(/\s+/g, " ")`: every maximal whitespace run
becomes a single space.  The flag records whether the previous character
was whitespace. -/
def collapseWsGo : List Char → Bool → List Char
  | [], _ => []
  | c :: rest, prev =>
    if isJsWs c then
      if prev then collapseWsGo rest true else ' ' :: collapseWsGo rest true
    else c :: collapseWsGo rest false

/-- Model of `.replace(/\s+/g, " ")` on strings. -/
def collapseWs (s : String) : String := String.mk (collapseWsGo s.data false)

/-- Model of `.toLowerCase()` for ASCII tag names. -/
def lowerStr (s : String) : String := String.mk (s.data.map Char.toLower)

/-- Model of `.replace(/\|/g, "\\|")` used on table cells. -/
def escapePipesList : List Char → List Char
  | [] => []
  | c :: rest =>
    if c = '|' then '\\' :: '|' :: escapePipesList rest
    else c :: escapePipesList rest

/-- Model of `.replace(/\|/g, "\\|")` on strings. -/
def escapePipes (s : String) : String := String.mk (escapePipesList s.data)

/-- Model of `.split("\n")`, accumulating the current line reversed. -/
def splitLinesGo : List Char → List Char → List String
  | [], cur => [String.mk cur.reverse]
  | c :: rest, cur =>
    if c = '\n' then String.mk cur.reverse :: splitLinesGo rest []
    else splitLinesGo rest (c :: cur)

/-- Model of `quoteText.split("\n")`. -/
def splitLines (s : String) : List String := splitLinesGo s.data []

/-- Model of `element.getAttribute(name)`: value of the attribute when
present, `none` when absent (the DOM returns `null`). -/
def getAttribute (attrs : List (String × String)) (name : String) : Option String :=
  (attrs.find? (fun p => p.fst == name)).map Prod.snd

mutual
/-- Model of the DOM `textContent` read: concatenation of all descendant
text data in document order. -/
def textContent : Node → String
  | .text s => s
  | .elem _ _ cs => textContentList cs

/-- Concatenated `textContent` of a list of siblings. -/
def textContentList : List Node → String
  | [] => ""
  | c :: rest => textContent c ++ textContentList rest
end

/-- Source `getTextContent`: `element.textContent?.replace(/\s+/g, " ").trim() || ""`. -/
def getTextContent (e : Node) : String := jsTrim (collapseWs (textContent e))

/-- The `parseInt(tagName.charAt(1))` read of a heading level; only ever
applied to the six heading tags. -/
def headingLevel : String → Nat
  | "h1" => 1
  | "h2" => 2
  | "h3" => 3
  | "h4" => 4
  | "h5" => 5
  | "h6" => 6
  | _ => 0

/-- Whether an element node carries the given (lower-case) tag; text
nodes never match a selector. -/
def isTag (name : String) : Node → Bool
  | .text _ => false
  | .elem t _ _ => lowerStr t = name

mutual
/-- All descendant element nodes of a node in document (pre-)order,
excluding the node itself; the basis of the `querySelectorAll` model. -/
def descElems : Node → List Node
  | .text _ => []
  | .elem _ _ cs => descElemsList cs

/-- Descendant elements of a sibling list, each sibling element followed
by its own descendants. -/
def descElemsList : List Node → List Node
  | [] => []
  | .text _ :: rest => descElemsList rest
  | .elem t a cs :: rest =>
    Node.elem t a cs :: (descElemsList cs ++ descElemsList rest)
end

/-- Source table cell text: `getTextContent(cell).replace(/\|/g, "\\|").trim()`. -/
def cellText (cell : Node) : String := jsTrim (escapePipes (getTextContent cell))

/-- Model of `row.querySelectorAll("td, th")`: descendant cells of a row
in document order. -/
def rowCells (row : Node) : List Node :=
  (descElems row).filter (fun c => isTag "td" c ∨ isTag "th" c)

/-- Model of `row.querySelector("th")` truthiness: the row has some
descendant `th` element. -/
def rowHasTh (row : Node) : Bool := (descElems row).any (isTag "th")

/-- One pipe-delimited table line built from the cell texts of a row. -/
def tableRowLine (row : Node) : String :=
  "| " ++ String.intercalate " | " ((rowCells row).map cellText) ++ " |\n"

/-- Separator line emitted after a header row: one `---` per cell of the
row. -/
def tableSepLine (row : Node) : String :=
  "| " ++ String.intercalate " | " ((rowCells row).map (fun _ => "---")) ++ " |\n"

/-- Loop body of `convertTable`: `rows.forEach((row, rowIndex) => ...)`,
emitting each row line and, right after row index 0 when that row has a
`th` descendant, the separator line. -/
def convertTableRows : List Node → Nat → String
  | [], _ => ""
  | row :: rest, i =>
    tableRowLine row ++
    (if i = 0 ∧ rowHasTh row then tableSepLine row else "") ++
    convertTableRows rest (i + 1)

/-- Source `convertTable` applied to the child list of the table
element: `rows` is `querySelectorAll("tr")`, an empty row list returns
the empty string, otherwise the rows are wrapped in blank lines. -/
def convertTable (children : List Node) (_o : ConversionOptions) : String :=
  let rows := (descElemsList children).filter (isTag "tr")
  if rows.isEmpty then ""
  else "\n" ++ convertTableRows rows 0 ++ "\n"

mutual
/-- Source `convertElement`: dispatch on the lower-cased tag name.  The
`text` case plays the role of the defensive `if (!element) return ""`
of the source, which is never hit by the recursion (`convertChildren`
handles text children itself).  The `ul`/`ol` branch inlines the body of
the source `convertList` (leading newline, the `forEach` over the direct
`li` children, trailing newline). -/
def convertElement : Node → Nat → ConversionOptions → String
  | .text _, _, _ => ""
  | .elem tag attrs children, depth, o =>
    let tagName := lowerStr tag
    if tagName = "h1" ∨ tagName = "h2" ∨ tagName = "h3" ∨ tagName = "h4" ∨
        tagName = "h5" ∨ tagName = "h6" then
      "\n" ++ String.mk (List.replicate (headingLevel tagName) '#') ++ " " ++
        getTextContent (.elem tag attrs children) ++ "\n\n"
    else if tagName = "p" then
      let pText := convertChildren children depth o
      if jsTrim pText ≠ "" then pText ++ "\n\n" else ""
    else if tagName = "div" ∨ tagName = "section" ∨ tagName = "article" ∨
        tagName = "main" then
      convertChildren children depth o
    else if tagName = "ul" ∨ tagName = "ol" then
      "\n" ++ convertListItems children 0 depth o (tagName == "ol") ++ "\n"
    else if tagName = "li" then ""
    else if tagName = "a" then
      if o.preserveLinks then
        let href := getAttribute attrs "href"
        let linkText := getTextContent (.elem tag attrs children)
        if href.getD "" ≠ "" ∧ linkText ≠ "" then
          "[" ++ linkText ++ "](" ++ href.getD "" ++ ")"
        else linkText
      else getTextContent (.elem tag attrs children)
    else if tagName = "img" then
      if o.preserveImages then
        if (getAttribute attrs "src").getD "" ≠ "" then
          "![" ++ (getAttribute attrs "alt").getD "" ++ "](" ++
            (getAttribute attrs "src").getD "" ++ ")"
        else ""
      else ""
    else if tagName = "strong" ∨ tagName = "b" then
      "**" ++ getTextContent (.elem tag attrs children) ++ "**"
    else if tagName = "em" ∨ tagName = "i" then
      "*" ++ getTextContent (.elem tag attrs children) ++ "*"
    else if tagName = "code" then
      "`" ++ getTextContent (.elem tag attrs children) ++ "`"
    else if tagName = "pre" then
      "\n```\n" ++ getTextContent (.elem tag attrs children) ++ "\n```\n\n"
    else if tagName = "blockquote" then
      let quoteText := convertChildren children depth o
      "\n" ++ String.intercalate "\n"
        ((splitLines quoteText).map
          (fun line => if jsTrim line ≠ "" then "> " ++ line else ">")) ++ "\n\n"
    else if tagName = "br" then "\n"
    else if tagName = "hr" then "\n---\n\n"
    else if tagName = "table" then convertTable children o
    else convertChildren children depth o

/-- Source `convertChildren`: iterate the direct children in document
order; a text child contributes its trimmed data followed by one space
when the trimmed data is non-empty; an element child contributes its
recursively converted markup. -/
def convertChildren : List Node → Nat → ConversionOptions → String
  | [], _, _ => ""
  | c :: rest, depth, o =>
    (match c with
     | .text s => if jsTrim s ≠ "" then jsTrim s ++ " " else ""
     | .elem t a cs => convertElement (.elem t a cs) (depth + 1) o) ++
    convertChildren rest depth o

/-- The `items.forEach((item, index) => ...)` loop of the source
`convertList` over the `:scope > li` selection: direct `li` element
children get a `"- "` or `"<n>. "` marker and their trimmed aggregated
body; other direct children are skipped without consuming an index. -/
def convertListItems : List Node → Nat → Nat → ConversionOptions → Bool → String
  | [], _, _, _, _ => ""
  | .text _ :: rest, idx, depth, o, isOrdered =>
    convertListItems rest idx depth o isOrdered
  | .elem t _a cs :: rest, idx, depth, o, isOrdered =>
    if lowerStr t = "li" then
      (if isOrdered then toString (idx + 1) ++ ". " else "- ") ++
        jsTrim (convertChildren cs (depth + 1) o) ++ "\n" ++
        convertListItems rest (idx + 1) depth o isOrdered
    else convertListItems rest idx depth o isOrdered
end

/-- Source `convertList` applied to the child list of the list element:
leading newline, the item loop, trailing newline. -/
def convertList (children : List Node) (depth : Nat) (o : ConversionOptions)
    (isOrdered : Bool) : String :=
  "\n" ++ convertListItems children 0 depth o isOrdered ++ "\n"

/-- Stage 1 of `cleanupMdx`, `.replace(/\n{3,}/g, "\n\n")`: a maximal
newline run of length three or more becomes exactly two newlines.  The
counter carries the pending newline run. -/
def collapseNlGo : List Char → Nat → List Char
  | [], n => List.replicate (if n ≥ 3 then 2 else n) '\n'
  | c :: rest, n =>
    if c = '\n' then collapseNlGo rest (n + 1)
    else
      List.replicate (if n ≥ 3 then 2 else n) '\n' ++ c :: collapseNlGo rest 0

/-- Stage 2 of `cleanupMdx`, `.replace(/\n+#/g, "\n\n#")`: a maximal
newline run immediately followed by `#` becomes exactly two newlines. -/
def fixHeaderGo : List Char → Nat → List Char
  | [], n => List.replicate n '\n'
  | c :: rest, n =>
    if c = '\n' then fixHeaderGo rest (n + 1)
    else if c = '#' ∧ n ≥ 1 then '\n' :: '\n' :: '#' :: fixHeaderGo rest 0
    else List.replicate n '\n' ++ c :: fixHeaderGo rest 0

/-- Removal of trailing horizontal whitespace from one line. -/
def stripHorizEnd (l : List Char) : List Char :=
  (l.reverse.dropWhile isHorizWs).reverse

/-- Stage 3 of `cleanupMdx`, `.replace(/[ \t]+$/gm, "")`: per line
(segments separated by `\n`), trailing spaces and tabs are removed.  The
accumulator carries the current line reversed. -/
def stripLinesGo : List Char → List Char → List Char
  | [], cur => stripHorizEnd cur.reverse
  | c :: rest, cur =>
    if c = '\n' then stripHorizEnd cur.reverse ++ '\n' :: stripLinesGo rest []
    else stripLinesGo rest (c :: cur)

/-- Stage 4 of `cleanupMdx`, `.replace(/\n*$/, "\n")`: the trailing
newline run is replaced by a single newline. -/
def dropTrailNl (l : List Char) : List Char :=
  (l.reverse.dropWhile (fun c => c = '\n')).reverse ++ ['\n']

/-- Source `cleanupMdx`: the four regex replacements followed by the
final `.trim()`, in the order of the source chain. -/
def cleanupMdx (s : String) : String :=
  String.mk (jsTrimList (dropTrailNl (stripLinesGo (fixHeaderGo (collapseNlGo s.data 0) 0) [])))

/-- Tags removed before conversion:
`doc.querySelectorAll("script, style, noscript")` followed by
`el.remove()`. -/
def isStrippedTag (t : String) : Bool :=
  lowerStr t = "script" ∨ lowerStr t = "style" ∨ lowerStr t = "noscript"

mutual
/-- Contribution of a single node to the stripped tree: a `script`,
`style` or `noscript` element is dropped with its whole subtree, any
other node is kept with its children stripped recursively. -/
def stripOne : Node → List Node
  | .text s => [.text s]
  | .elem t a cs =>
    if isStrippedTag t then [] else [.elem t a (stripScriptsList cs)]

/-- Removal of every `script`, `style` and `noscript` subtree from a
sibling list, at all depths. -/
def stripScriptsList : List Node → List Node
  | [] => []
  | c :: rest => stripOne c ++ stripScriptsList rest
end

/-- Front-matter block of `htmlToMdx` when `includeMetadata` is set:
`title` (falling back to `Untitled` on an empty title), `description`
only when non-empty, and the `date` string taken from the clock at call
time. -/
def buildMeta (title : String) (descr : Option String) (now : String) : String :=
  "---\n" ++
  "title: \"" ++ (if title = "" then "Untitled" else title) ++ "\"\n" ++
  (if descr.getD "" = "" then ""
   else "description: \"" ++ descr.getD "" ++ "\"\n") ++
  "date: \"" ++ now ++ "\"\n" ++
  "---\n\n"

/-- Source `htmlToMdx` on an already-parsed document: the body element
(tag, attributes, children), the document title, the optional
`meta[name=description]` content and the current clock reading `now`
stand for the values the source reads from the DOM and from `new
Date()`.  Script, style and noscript subtrees are removed first, the
optional front matter and the converted body are concatenated, and the
result is post-processed by `cleanupMdx`. -/
def htmlToMdx (bodyTag : String) (bodyAttrs : List (String × String))
    (bodyChildren : List Node) (title : String) (descr : Option String)
    (now : String) (o : ConversionOptions) : String :=
  let cleaned := stripScriptsList bodyChildren
  let meta := if o.includeMetadata then buildMeta title descr now else ""
  cleanupMdx (meta ++ convertElement (.elem bodyTag bodyAttrs cleaned) 0 o)

/-- Concatenation of a list of strings in order, used by the spec-shaped
aggregation definitions. -/
def joinAll : List String → String
  | [] => ""
  | s :: rest => s ++ joinAll rest

/-- Whether a character list contains three consecutive newlines. -/
def hasTripleNl : List Char → Bool
  | '\n' :: '\n' :: '\n' :: _ => true
  | _ :: rest => hasTripleNl rest
  | [] => false

/-- Child aggregation as the claim words it: a text child is collapsed
(whitespace runs to single spaces) and trimmed, then appended with one
trailing space when non-empty; an element child is recursively
formatted. -/
def claimChildPiece (depth : Nat) (o : ConversionOptions) : Node → String
  | .text s =>
    if jsTrim (collapseWs s) ≠ "" then jsTrim (collapseWs s) ++ " " else ""
  | .elem t a cs => convertElement (.elem t a cs) (depth + 1) o

/-- Aggregation of the claim-worded child pieces in document order. -/
def claimChildAgg (cs : List Node) (depth : Nat) (o : ConversionOptions) : String :=
  joinAll (cs.map (claimChildPiece depth o))

/-- Child aggregation as amended: a text child is only trimmed (its
internal whitespace is preserved), then appended with one trailing space
when non-empty; an element child is recursively formatted. -/
def amendedChildPiece (depth : Nat) (o : ConversionOptions) : Node → String
  | .text s => if jsTrim s ≠ "" then jsTrim s ++ " " else ""
  | .elem t a cs => convertElement (.elem t a cs) (depth + 1) o

/-- Aggregation of the amended child pieces in document order. -/
def amendedChildAgg (cs : List Node) (depth : Nat) (o : ConversionOptions) : String :=
  joinAll (cs.map (amendedChildPiece depth o))

/-- Table output as the claim words it: empty when there are no `tr`
rows; otherwise every row becomes a pipe-delimited line, and the first
row is followed by a `---` separator line of the same column count
exactly when it contains a `th` cell. -/
def specTable (children : List Node) (_o : ConversionOptions) : String :=
  match (descElemsList children).filter (isTag "tr") with
  | [] => ""
  | r0 :: rest =>
    "\n" ++ tableRowLine r0 ++ (if rowHasTh r0 then tableSepLine r0 else "") ++
      joinAll (rest.map tableRowLine) ++ "\n"

mutual
/-- Two nodes that agree everywhere except possibly on the descendants
of `script`, `style` and `noscript` elements. -/
inductive ScriptEquiv : Node → Node → Prop where
  | text (s : String) : ScriptEquiv (.text s) (.text s)
  | strip (t : String) (a : List (String × String)) (cs1 cs2 : List Node) :
      isStrippedTag t = true → ScriptEquiv (.elem t a cs1) (.elem t a cs2)
  | elem (t : String) (a : List (String × String)) {cs1 cs2 : List Node} :
      ScriptEquivList cs1 cs2 → ScriptEquiv (.elem t a cs1) (.elem t a cs2)

/-- Pointwise `ScriptEquiv` on sibling lists. -/
inductive ScriptEquivList : List Node → List Node → Prop where
  | nil : ScriptEquivList [] []
  | cons {c1 c2 : Node} {r1 r2 : List Node} :
      ScriptEquiv c1 c2 → ScriptEquivList r1 r2 →
      ScriptEquivList (c1 :: r1) (c2 :: r2)
end

/-- C1: the source emits the fenced block with the shape the claim
states, but the text inside it is the `getTextContent` flattening,
whose `.replace(/\s+/g, " ")` collapses the original whitespace and
newlines of the `pre` element instead of preserving them verbatim. -/
theorem pre_text_collapsed :
    convertElement (.elem "pre" [] [.text "line1\n  line2"]) 0 {} =
      "\n```\nline1 line2\n```\n\n" ∧
    convertElement (.elem "pre" [] [.text "line1\n  line2"]) 0 {} ≠
      "\n```\nline1\n  line2\n```\n\n" :=
  ⟨by decide, by decide⟩

/-- C2: on the body `<p>Hello</p>` the converter returns `Hello` with no
trailing newline at all: the final `.trim()` of `cleanupMdx` strips the
newline that the preceding `.replace(/\n*$/, "\n")` just reinstated. -/
theorem htmlToMdx_no_trailing_newline :
    htmlToMdx "body" [] [.elem "p" [] [.text "Hello"]] "t" none "2024" {} = "Hello" ∧
    (htmlToMdx "body" [] [.elem "p" [] [.text "Hello"]] "t" none "2024" {}).data.getLast?
      ≠ some '\n' :=
  ⟨by decide, by decide⟩

/-- C3 counterexample: on the text child `"a\nb"` the source
`convertChildren` keeps the internal newline (it only trims), while the
claimed aggregation collapses it to a space, so the two differ. -/
theorem convertChildren_collapse_cex :
    convertChildren [.text "a\nb"] 0 {} = "a\nb " ∧
    claimChildAgg [.text "a\nb"] 0 {} = "a b " ∧
    convertChildren [.text "a\nb"] 0 {} ≠ claimChildAgg [.text "a\nb"] 0 {} :=
  ⟨by decide, by decide, by decide⟩

/-- C3 as amended: child aggregation appends, in document order, each
text child trimmed (internal whitespace preserved) plus one trailing
space when non-empty, and each element child recursively formatted. -/
theorem convertChildren_amended (cs : List Node) (depth : Nat) (o : ConversionOptions) :
    convertChildren cs depth o = amendedChildAgg cs depth o := by
  induction cs with
  | nil => rfl
  | cons c rest ih =>
    cases c with
    | text s => simp [convertChildren, amendedChildAgg, amendedChildPiece, joinAll, ih]
    | elem t a cs2 =>
      simp [convertChildren, amendedChildAgg, amendedChildPiece, joinAll, ih]

/-- C4: with `preserveLinks` set and an `href` attribute containing a
space-only line between blank lines, the converter output contains four
consecutive newlines: `cleanupMdx` strips line-trailing whitespace only
after collapsing newline runs, so the run created by that stripping
survives. -/
theorem htmlToMdx_triple_newline :
    htmlToMdx "body" [] [.elem "a" [("href", "x\n\n \n\ny")] [.text "t"]] "t" none "now"
        { preserveLinks := true } = "[t](x\n\n\n\ny)" ∧
    hasTripleNl (htmlToMdx "body" [] [.elem "a" [("href", "x\n\n \n\ny")] [.text "t"]]
        "t" none "now" { preserveLinks := true }).data = true :=
  ⟨by decide, by decide⟩

/-- C5: `cleanupMdx` is not idempotent: on `"a\n\n \n\nb"` the first
pass turns the space-only line into a four-newline run (stripping
happens after newline collapsing), and only the second pass collapses
that run. -/
theorem cleanupMdx_not_idempotent :
    cleanupMdx "a\n\n \n\nb" = "a\n\n\n\nb" ∧
    cleanupMdx (cleanupMdx "a\n\n \n\nb") = "a\n\nb" ∧
    cleanupMdx (cleanupMdx "a\n\n \n\nb") ≠ cleanupMdx "a\n\n \n\nb" :=
  ⟨by decide, by decide, by decide⟩

/-- C8: the conversion is total: it is a terminating function returning
a string on every finite tree and option record (termination of the
recursive definitions is established at definition time). -/
theorem htmlToMdx_total (bt : String) (ba : List (String × String))
    (cs : List Node) (ti : String) (de : Option String) (now : String)
    (o : ConversionOptions) :
    ∃ s : String, htmlToMdx bt ba cs ti de now o = s :=
  ⟨_, rfl⟩

/-- C9: the converter is deterministic: two runs on the same tree and
options agree whenever the clock reading is the same, and also for
different clock readings when `includeMetadata` is off, the date field
being the only time-of-call dependence. -/
theorem htmlToMdx_deterministic (bt : String) (ba : List (String × String))
    (cs : List Node) (ti : String) (de : Option String) (o : ConversionOptions)
    (now1 now2 : String) (h : now1 = now2 ∨ o.includeMetadata = false) :
    htmlToMdx bt ba cs ti de now1 o = htmlToMdx bt ba cs ti de now2 o := by
  rcases h with h | h
  · rw [h]
  · simp only [htmlToMdx, h, Bool.false_eq_true, if_false]

/-- C9 witness: concrete application with two different clock readings
and metadata off. -/
theorem htmlToMdx_deterministic_witness :
    htmlToMdx "body" [] [.elem "p" [] [.text "x"]] "t" none "early" {} =
      htmlToMdx "body" [] [.elem "p" [] [.text "x"]] "t" none "late" {} :=
  htmlToMdx_deterministic "body" [] [.elem "p" [] [.text "x"]] "t" none {}
    "early" "late" (Or.inr rfl)

/-- Rows after the first are never followed by a separator: from any
positive index the row loop emits exactly the row lines. -/
theorem convertTableRows_tail (rest : List Node) (i : Nat) :
    convertTableRows rest (i + 1) = joinAll (rest.map tableRowLine) := by
  induction rest generalizing i with
  | nil => rfl
  | cons row rs ih =>
    simp [convertTableRows, joinAll, ih, String.append_assoc]

/-- C7: the table conversion agrees with the claim sentence: no `tr`
rows give the empty string, every row becomes a pipe-delimited line of
its flattened, pipe-escaped, trimmed cell texts, and the `---`
separator of the same column count follows the first row exactly when
that row contains a `th` cell. -/
theorem convertTable_spec (children : List Node) (o : ConversionOptions) :
    convertTable children o = specTable children o := by
  unfold convertTable specTable
  cases h : (descElemsList children).filter (isTag "tr") with
  | nil => rfl
  | cons r0 rest =>
    have h1 : convertTableRows rest 1 = joinAll (rest.map tableRowLine) :=
      convertTableRows_tail rest 0
    simp [convertTableRows, h1, String.append_assoc]

/-- Equal sibling lists result from stripping script-equivalent sibling
lists: the stripped tree does not depend on the descendants of
`script`, `style` and `noscript` elements. -/
theorem stripScriptsList_congr :
    ∀ n : Nat, ∀ cs1 cs2 : List Node, sizeOf cs1 ≤ n → ScriptEquivList cs1 cs2 →
      stripScriptsList cs1 = stripScriptsList cs2 := by
  intro n
  induction n using Nat.strong_induction_on with
  | _ n ih =>
    intro cs1 cs2 hsz h
    cases h with
    | nil => rfl
    | @cons c1 c2 r1 r2 hc hrest =>
      have hszr : sizeOf r1 < n := by
        have : sizeOf r1 < sizeOf (c1 :: r1) := by simp
        omega
      have hr : stripScriptsList r1 = stripScriptsList r2 :=
        ih (sizeOf r1) hszr r1 r2 le_rfl hrest
      cases hc with
      | text s => simp only [stripScriptsList, hr]
      | strip t a cs1 cs2 hst =>
        simp only [stripScriptsList, stripOne, hst, if_true, hr]
      | @elem t a cs1 cs2 hcs =>
        have hszc : sizeOf cs1 < n := by
          have : sizeOf cs1 < sizeOf (Node.elem t a cs1 :: r1) := by simp; omega
          omega
        have hinner : stripScriptsList cs1 = stripScriptsList cs2 :=
          ih (sizeOf cs1) hszc cs1 cs2 le_rfl hcs
        simp only [stripScriptsList, stripOne, hinner, hr]

/-- C6: the converter output is independent of the contents of `script`,
`style` and `noscript` subtrees at every nesting depth: on
script-equivalent bodies (section contents of such subtrees replaced
arbitrarily, or removed) the output is byte-identical. -/
theorem htmlToMdx_script_independent (bt : String) (ba : List (String × String))
    (cs1 cs2 : List Node) (ti : String) (de : Option String) (now : String)
    (o : ConversionOptions) (h : ScriptEquivList cs1 cs2) :
    htmlToMdx bt ba cs1 ti de now o = htmlToMdx bt ba cs2 ti de now o := by
  have hs : stripScriptsList cs1 = stripScriptsList cs2 :=
    stripScriptsList_congr (sizeOf cs1) cs1 cs2 le_rfl h
  simp only [htmlToMdx, hs]

/-- C6 witness: replacing the payload of a `script` element by nothing
leaves the output unchanged. -/
theorem htmlToMdx_script_independent_witness :
    htmlToMdx "body" [] [.elem "script" [] [.text "alert(1)"], .text "hi"]
        "t" none "now" {} =
      htmlToMdx "body" [] [.elem "script" [] [], .text "hi"] "t" none "now" {} :=
  htmlToMdx_script_independent "body" [] _ _ "t" none "now" {}
    (ScriptEquivList.cons (ScriptEquiv.strip _ _ _ _ (by decide))
      (ScriptEquivList.cons (ScriptEquiv.text _) ScriptEquivList.nil))

/-- Joint depth-independence of the three mutually recursive conversion
functions, proved by strong induction on the size of the input. -/
theorem depth_invariant :
    ∀ n : Nat,
      (∀ e : Node, sizeOf e ≤ n → ∀ d1 d2 : Nat, ∀ o : ConversionOptions,
        convertElement e d1 o = convertElement e d2 o) ∧
      (∀ cs : List Node, sizeOf cs ≤ n →
        (∀ d1 d2 : Nat, ∀ o : ConversionOptions,
          convertChildren cs d1 o = convertChildren cs d2 o) ∧
        (∀ i d1 d2 : Nat, ∀ o : ConversionOptions, ∀ b : Bool,
          convertListItems cs i d1 o b = convertListItems cs i d2 o b)) := by
  intro n
  induction n using Nat.strong_induction_on with
  | _ n ih =>
    constructor
    · intro e hsz d1 d2 o
      cases e with
      | text s => rfl
      | elem tag attrs cs =>
        have hcs : sizeOf cs < n := by
          have : sizeOf cs < sizeOf (Node.elem tag attrs cs) := by simp
          omega
        obtain ⟨hA, hB⟩ := (ih (sizeOf cs) hcs).2 cs le_rfl
        simp only [convertElement]
        rw [hA d1 d2 o, hB 0 d1 d2 o (lowerStr tag == "ol")]
    · intro cs hsz
      cases cs with
      | nil => exact ⟨fun _ _ _ => rfl, fun _ _ _ _ _ => rfl⟩
      | cons c rest =>
        have hrest : sizeOf rest < n := by
          have : sizeOf rest < sizeOf (c :: rest) := by simp
          omega
        have hcn : sizeOf c < n := by
          have : sizeOf c < sizeOf (c :: rest) := by simp; omega
          omega
        obtain ⟨hAr, hBr⟩ := (ih (sizeOf rest) hrest).2 rest le_rfl
        constructor
        · intro d1 d2 o
          cases c with
          | text s =>
            simp only [convertChildren]
            rw [hAr d1 d2 o]
          | elem t a cs2 =>
            have hE := (ih (sizeOf (Node.elem t a cs2)) hcn).1 (Node.elem t a cs2) le_rfl
            simp only [convertChildren]
            rw [hE (d1 + 1) (d2 + 1) o, hAr d1 d2 o]
        · intro i d1 d2 o b
          cases c with
          | text s =>
            simp only [convertListItems]
            rw [hBr i d1 d2 o b]
          | elem t a cs2 =>
            have hcs2 : sizeOf cs2 < n := by
              have : sizeOf cs2 < sizeOf (Node.elem t a cs2 :: rest) := by simp; omega
              omega
            have hA2 := ((ih (sizeOf cs2) hcs2).2 cs2 le_rfl).1
            simp only [convertListItems]
            rw [hA2 (d1 + 1) (d2 + 1) o, hBr (i + 1) d1 d2 o b, hBr i d1 d2 o b]

/-- C10: the depth counter threaded through the recursive formatter
never influences the output: formatting any node at any two depths
yields identical strings, and no depth bound is enforced anywhere. -/
theorem convertElement_depth_independent (e : Node) (d1 d2 : Nat)
    (o : ConversionOptions) :
    convertElement e d1 o = convertElement e d2 o :=
  (depth_invariant (sizeOf e)).1 e le_rfl d1 d2 o
